import Mathlib

/-!
# Verification of the xstate-redux-supervisor event bus

A shallow embedding of `src/App.tsx`: a Redux store holds a registry
(`Stations`) mapping machine identities to `Station` records; the reducer
`stationsReducer` routes dispatched events (plain targeted events, batches,
registrations) to per-station handling (`stationReducer`), which either feeds
a live interpreter or queues the event.  The binding hook
(`useSupervisedMachine`) is embedded as registry transformers
(`attachService`, `detachService`, `drainStation`) and the outgoing-event
normalizer (`sendWrapper`).

The xstate interpreter is an external collaborator: it is modelled as a pure
step function `σ → PlainEvent → NextState σ` applied to the station's stored
state (`service.send` returns the successor state together with a `changed`
flag; an interpreter whose send reports `changed = false` has kept its state,
so the stored state stays in sync with the interpreter's internal state).

The registry is embedded as an association list with JavaScript object
semantics: `state[k]` is `lookupStation`, and the spread update
`{...state, [k]: v}` is `insertStation` (overwrite in place, or append).
-/

set_option autoImplicit false

namespace Supervisor

/-- The `to` designation of an event: a single identity or a list of
identities (`to?: string | string[]`); absence is `Option.none` one level up. -/
inductive EventTarget where
  | one (id : String)
  | many (ids : List String)
deriving DecidableEq, Repr

/-- An `AnyDispatchedEvent`: a plain xstate event object with a `type`, an
optional data payload (the demo's events carry at most a string `value`), and
an optional `to` target.  The TS type declares `to` required, but at runtime
it may be absent, which the router must cope with (claim C10). -/
structure PlainEvent where
  type : String
  value : Option String := none
  target : Option EventTarget := none
deriving DecidableEq, Repr

/-- The result of `service.send(event)`: the successor state and xstate's
`changed` flag. -/
structure NextState (σ : Type) where
  state : σ
  changed : Bool

/-- A station: a machine attached to the event bus (`type Station`).  The
machine definition and the live interpreter are both represented by their
step semantics; `service` is `some` exactly while the owning component is
mounted. -/
structure Station (σ : Type) where
  id : String
  machine : σ → PlainEvent → NextState σ
  service : Option (σ → PlainEvent → NextState σ) := none
  eventQueue : List PlainEvent := []
  state : σ

/-- The Redux store state: `Record<string, Station>`, embedded as an
association list from identity to station. -/
def Stations (σ : Type) : Type := List (String × Station σ)

/-- The union `DispatchedSupervisedEvent`: a batch, a registration, or a
plain targeted event (the union is discriminated by the `type` tag in the
source, so it embeds as a sum). -/
inductive DispatchedSupervisedEvent (σ : Type) where
  | batched (events : List PlainEvent)
  | register (payload : Station σ)
  | plain (e : PlainEvent)

variable {σ : Type}

/-- JavaScript property lookup `state[k]`. -/
def lookupStation : Stations σ → String → Option (Station σ)
  | [], _ => none
  | p :: ps, k => if p.1 = k then some p.2 else lookupStation ps k

/-- JavaScript spread update `{...state, [k]: v}`: overwrite the entry for
`k` in place if present, otherwise append it. -/
def insertStation : Stations σ → String → Station σ → Stations σ
  | [], k, v => [(k, v)]
  | p :: ps, k, v => if p.1 = k then (k, v) :: ps else p :: insertStation ps k v

/-- `stationReducer`: deliver one event to one station.  With a live
interpreter, feed the event and store the successor state only when the
interpreter reports a change (returning the input station itself otherwise);
without one, append the event to the pending queue. -/
def stationReducer (state : Station σ) (event : PlainEvent) : Station σ :=
  match state.service with
  | some send =>
    let next := send state.state event
    if next.changed then { state with state := next.state }
    else state
  | none => { state with eventQueue := state.eventQueue ++ [event] }

/-- The shared tail of `stationsReducer`: look the target key up; if a
station is there, rebuild the registry with the station reduced, else return
the registry unchanged (`const station = state[event.to]; ...`). -/
def deliver (s : Stations σ) (key : String) (e : PlainEvent) : Stations σ :=
  match lookupStation s key with
  | some station => insertStation s key (stationReducer station e)
  | none => s

/-- Termination measure on a plain event's target: expanding a list target
into a batch of single-target copies must shrink it. -/
def targetWeight : Option EventTarget → Nat
  | some (.many ids) => ids.length + 3
  | _ => 1

/-- Termination measure on a batch's member list. -/
def eventsWeight : List PlainEvent → Nat
  | [] => 0
  | e :: es => targetWeight e.target + eventsWeight es

/-- Termination measure on a dispatched event. -/
def eventWeight : DispatchedSupervisedEvent σ → Nat
  | .batched es => 2 + eventsWeight es
  | .register _ => 1
  | .plain e => targetWeight e.target

theorem targetWeight_pos (t : Option EventTarget) : 1 ≤ targetWeight t := by
  cases t with
  | none => simp [targetWeight]
  | some t' => cases t' <;> simp [targetWeight]

theorem eventsWeight_map_one (e : PlainEvent) (ids : List String) :
    eventsWeight (ids.map fun id => { e with target := some (.one id) }) = ids.length := by
  induction ids with
  | nil => rfl
  | cons i is ih =>
    simp [eventsWeight, targetWeight, ih]
    omega

mutual

/-- `stationsReducer`: the Redux store reducer.  A batch folds the reducer
over its members in order; a registration inserts/overwrites the payload
station under its identity; a plain event with a list target expands into a
batch of single-target copies; otherwise the event is delivered to the
station at the JavaScript property key of its target (an absent target is
coerced to the property key `"undefined"`). -/
def stationsReducer (s : Stations σ) : DispatchedSupervisedEvent σ → Stations σ
  | .batched events => applyEvents s events
  | .register payload => insertStation s payload.id payload
  | .plain e =>
    match h : e.target with
    | some (.many ids) =>
      stationsReducer s (.batched (ids.map fun id => { e with target := some (.one id) }))
    | some (.one id) => deliver s id e
    | none => deliver s "undefined" e
termination_by ev => eventWeight ev
decreasing_by
  · simp [eventWeight]
  · simp [eventWeight, h, targetWeight, eventsWeight_map_one]
    omega

/-- The fold `events.reduce((acc, next) => stationsReducer(acc, next), state)`
written as structural recursion on the member list. -/
def applyEvents (s : Stations σ) : List PlainEvent → Stations σ
  | [] => s
  | e :: es => applyEvents (stationsReducer s (.plain e)) es
termination_by es => 1 + eventsWeight es
decreasing_by
  · simp [eventWeight, eventsWeight]
    have := targetWeight_pos e.target
    omega
  · simp [eventsWeight]
    have := targetWeight_pos e.target
    omega

end

/-! ## The binding hook, embedded as registry transformers

`useSupervisedMachine` mutates the registry outside the dispatch path in its
mount/unmount effects (`store.getState()[id].service = service` and the queue
splice); those mutations are embedded as explicit registry transformers. -/

/-- The mount effect `store.getState()[id].service = service`.  (On a missing
entry the source would throw; in every real run registration precedes the
effect, so the embedding totalizes the missing case as a no-op.) -/
def attachService (s : Stations σ) (id : String)
    (svc : σ → PlainEvent → NextState σ) : Stations σ :=
  match lookupStation s id with
  | some st => insertStation s id { st with service := some svc }
  | none => s

/-- The unmount cleanup `store.getState()[id].service = undefined`. -/
def detachService (s : Stations σ) (id : String) : Stations σ :=
  match lookupStation s id with
  | some st => insertStation s id { st with service := none }
  | none => s

/-- The drain effect: when the pending queue is non-empty it is spliced out
of the station (cleared in place) and redispatched as one `BATCHED` event
through the router. -/
def drainStation (s : Stations σ) (id : String) : Stations σ :=
  match lookupStation s id with
  | some st =>
    if st.eventQueue.isEmpty then s
    else
      stationsReducer (insertStation s id { st with eventQueue := [] })
        (.batched st.eventQueue)
  | none => s

/-- One React commit of a mounting component: the effect attaching the fresh
interpreter runs, immediately followed in the same synchronous effect flush
by the drain effect. -/
def mountStation (s : Stations σ) (id : String)
    (svc : σ → PlainEvent → NextState σ) : Stations σ :=
  drainStation (attachService s id svc) id

/-- Modelled from the spec: "applying the same event sequence directly to a
fresh interpreter seeded with the pre-drain state".  An interpreter fed an
event always advances to the state `send` returns. -/
def replay (send : σ → PlainEvent → NextState σ) : σ → List PlainEvent → σ
  | s0, [] => s0
  | s0, e :: es => replay send (send s0 e).state es

/-! ## The outgoing send wrapper -/

/-- One element a component may pass to `send`: a bare event type name or an
event object (with an optional `to`). -/
inductive SendItem where
  | name (type : String)
  | obj (e : PlainEvent)
deriving DecidableEq, Repr

/-- The argument of the hook's `send`: a single item or an array of items. -/
inductive OutgoingEvent where
  | single (i : SendItem)
  | list (items : List SendItem)
deriving DecidableEq, Repr

/-- `event.to || id`: JavaScript truthiness on the target — `undefined` and
the empty string are falsy and are replaced by the component's identity;
every array (even an empty one) is truthy and is kept. -/
def toOrId : Option EventTarget → String → EventTarget
  | none, id => .one id
  | some (.one s), id => if s = "" then .one id else .one s
  | some (.many l), _ => .many l

/-- The normalization `sendWrapper` applies to each item: a bare type name
becomes `{ type, to: id }`; an object becomes
`{...event, type: event.type, to: event.to || id}`. -/
def normalizeItem (id : String) : SendItem → PlainEvent
  | .name t => { type := t, value := none, target := some (.one id) }
  | .obj e => { e with target := some (toOrId e.target id) }

/-- `sendWrapper`'s `sendToStore`: an array is normalized element-wise and
wrapped in one `BATCHED` event; a single item is normalized and dispatched
as a plain event. -/
def sendWrapper (id : String) : OutgoingEvent → DispatchedSupervisedEvent σ
  | .list items => .batched (items.map (normalizeItem id))
  | .single i => .plain (normalizeItem id i)

/-! ## Basic lemmas -/

@[simp] theorem applyEvents_nil (s : Stations σ) : applyEvents s [] = s := by
  simp [applyEvents]

@[simp] theorem applyEvents_cons (s : Stations σ) (e : PlainEvent) (es : List PlainEvent) :
    applyEvents s (e :: es) = applyEvents (stationsReducer s (.plain e)) es := by
  simp [applyEvents]

@[simp] theorem stationsReducer_batched (s : Stations σ) (es : List PlainEvent) :
    stationsReducer s (.batched es) = applyEvents s es := by
  simp [stationsReducer]

@[simp] theorem stationsReducer_register (s : Stations σ) (payload : Station σ) :
    stationsReducer s (.register payload) = insertStation s payload.id payload := by
  simp [stationsReducer]

theorem stationsReducer_one (s : Stations σ) (e : PlainEvent) (id : String)
    (h : e.target = some (.one id)) : stationsReducer s (.plain e) = deliver s id e := by
  rw [stationsReducer, h]

theorem stationsReducer_noTarget (s : Stations σ) (e : PlainEvent)
    (h : e.target = none) : stationsReducer s (.plain e) = deliver s "undefined" e := by
  rw [stationsReducer, h]

theorem stationsReducer_many (s : Stations σ) (e : PlainEvent) (ids : List String)
    (h : e.target = some (.many ids)) :
    stationsReducer s (.plain e) =
      applyEvents s (ids.map fun id => { e with target := some (.one id) }) := by
  rw [stationsReducer, h]
  exact stationsReducer_batched s _

theorem applyEvents_eq_foldl (es : List PlainEvent) (s : Stations σ) :
    applyEvents s es = es.foldl (fun acc e => stationsReducer acc (.plain e)) s := by
  induction es generalizing s with
  | nil => simp
  | cons e es ih => simp [ih]

theorem lookup_insert (s : Stations σ) (k : String) (v : Station σ) (k' : String) :
    lookupStation (insertStation s k v) k' =
      if k = k' then some v else lookupStation s k' := by
  induction s with
  | nil =>
    by_cases h : k = k' <;> simp [insertStation, lookupStation, h]
  | cons p ps ih =>
    by_cases hp : p.1 = k
    · by_cases h : k = k'
      · simp [insertStation, lookupStation, hp, h]
      · have hpk : ¬ p.1 = k' := fun hc => h (hp.symm.trans hc)
        simp [insertStation, lookupStation, hp, h, hpk]
    · by_cases hq : p.1 = k'
      · have h : ¬ k = k' := fun hc => hp (hq.trans hc.symm)
        have h' : ¬ k' = k := fun hc => h hc.symm
        simp [insertStation, lookupStation, hp, hq, h, h']
      · simp [insertStation, lookupStation, hp, hq, ih]

theorem lookup_insert_self (s : Stations σ) (k : String) (v : Station σ) :
    lookupStation (insertStation s k v) k = some v := by
  simp [lookup_insert]

theorem lookup_insert_ne (s : Stations σ) (k : String) (v : Station σ)
    (k' : String) (h : k ≠ k') :
    lookupStation (insertStation s k v) k' = lookupStation s k' := by
  simp [lookup_insert, h]

/-- A single-target event leaves every other key of the registry unchanged. -/
theorem lookup_stationsReducer_single_ne (s : Stations σ) (e : PlainEvent)
    (id k : String) (he : e.target = some (.one id)) (hk : id ≠ k) :
    lookupStation (stationsReducer s (.plain e)) k = lookupStation s k := by
  rw [stationsReducer_one s e id he]
  cases hfind : lookupStation s id with
  | none => simp [deliver, hfind]
  | some st => simp [deliver, hfind, lookup_insert, hk]

/-- Folding single-target events whose targets all avoid `k` leaves the
entry at `k` unchanged. -/
theorem lookup_applyEvents_ne (k : String) (es : List PlainEvent) (s : Stations σ)
    (hes : ∀ e ∈ es, ∃ id, e.target = some (.one id) ∧ id ≠ k) :
    lookupStation (applyEvents s es) k = lookupStation s k := by
  induction es generalizing s with
  | nil => simp
  | cons e es ih =>
    obtain ⟨id, he, hid⟩ := hes e (List.mem_cons_self e es)
    rw [applyEvents_cons, ih _ fun e' h' => hes e' (List.mem_cons_of_mem e h'),
      lookup_stationsReducer_single_ne s e id k he hid]

/-! ## Concrete fixtures for closed instances -/

/-- A concrete interpreter step over `Nat` states: it increments the state on
every event and always reports a change. -/
def incStep : Nat → PlainEvent → NextState Nat := fun n _ => ⟨n + 1, true⟩

/-- A concrete event targeted at the station `"A"`. -/
def evA : PlainEvent := { type := "E", value := none, target := some (.one "A") }

/-- A concrete live station `"A"` with an empty queue. -/
def stA : Station Nat :=
  { id := "A", machine := incStep, service := some incStep, eventQueue := [], state := 0 }

/-- A concrete parked (no live interpreter) station `"B"`. -/
def stB : Station Nat :=
  { id := "B", machine := incStep, service := none, eventQueue := [], state := 5 }

/-- A concrete registry holding the live `"A"` and the parked `"B"`. -/
def regAB : Stations Nat := [("A", stA), ("B", stB)]

/-! ## The claims -/

/-- C1: for every registry and every batch event, applying the batch with the
router equals the left fold of the router over the batch's member events in
list order, each step's output registry feeding the next step's input. -/
theorem batch_fold_law (σ : Type) (s : Stations σ) (events : List PlainEvent) :
    stationsReducer s (.batched events) =
      events.foldl (fun acc e => stationsReducer acc (.plain e)) s := by
  rw [stationsReducer_batched, applyEvents_eq_foldl]

/-- C2: an event with a list target of n identities is routed exactly like
the n single-target copies (one per identity, in list order), and every
station not named in the list is left unchanged. -/
theorem list_target_expansion (σ : Type) (s : Stations σ) (e : PlainEvent)
    (ids : List String) (h : e.target = some (.many ids)) :
    stationsReducer s (.plain e) =
      (ids.map fun id => { e with target := some (.one id) }).foldl
        (fun acc e' => stationsReducer acc (.plain e')) s
    ∧ ∀ k, k ∉ ids →
        lookupStation (stationsReducer s (.plain e)) k = lookupStation s k := by
  constructor
  · rw [stationsReducer_many s e ids h, applyEvents_eq_foldl]
  · intro k hk
    rw [stationsReducer_many s e ids h]
    refine lookup_applyEvents_ne k _ s ?_
    intro e' he'
    obtain ⟨id, hid, rfl⟩ := List.mem_map.mp he'
    exact ⟨id, rfl, fun hc => hk (hc ▸ hid)⟩

/-- C2 witness: the expansion law and frame condition at a concrete registry
and event with target list `["A", "B"]`. -/
theorem list_target_expansion_witness :
    stationsReducer regAB
        (.plain { type := "E", value := none, target := some (.many ["A", "B"]) }) =
      (["A", "B"].map fun id =>
          { type := "E", value := none, target := some (EventTarget.one id) }).foldl
        (fun acc e' => stationsReducer acc (.plain e')) regAB
    ∧ ∀ k, k ∉ ["A", "B"] →
        lookupStation
            (stationsReducer regAB
              (.plain { type := "E", value := none, target := some (.many ["A", "B"]) })) k =
          lookupStation regAB k :=
  list_target_expansion Nat regAB _ ["A", "B"] rfl

/-- C6: a single-target event whose target identity is absent from the
registry leaves the registry unchanged — the router returns its input
registry value, surfacing no error. -/
theorem unknown_target_noop (σ : Type) (s : Stations σ) (e : PlainEvent)
    (id : String) (he : e.target = some (.one id))
    (habs : lookupStation s id = none) :
    stationsReducer s (.plain e) = s := by
  rw [stationsReducer_one s e id he]
  simp [deliver, habs]

/-- C6 witness: dispatching to the unregistered identity `"Z"` leaves the
concrete registry untouched. -/
theorem unknown_target_noop_witness :
    stationsReducer regAB
        (.plain { type := "E", value := none, target := some (.one "Z") }) = regAB :=
  unknown_target_noop Nat regAB _ "Z" rfl rfl

/-- C7: with a live interpreter, the per-station reducer feeds the event to
it; a reported change replaces the stored state with the interpreter's new
state, and an unchanged report returns the input station itself. -/
theorem live_station_delivery (σ : Type) (st : Station σ) (e : PlainEvent)
    (send : σ → PlainEvent → NextState σ) (hsvc : st.service = some send) :
    ((send st.state e).changed = true →
      stationReducer st e = { st with state := (send st.state e).state })
    ∧ ((send st.state e).changed = false → stationReducer st e = st) := by
  constructor <;> intro hc <;> simp [stationReducer, hsvc, hc]

/-- C7 witness: delivery to the concrete live station `"A"`. -/
theorem live_station_delivery_witness :
    ((incStep stA.state evA).changed = true →
      stationReducer stA evA = { stA with state := (incStep stA.state evA).state })
    ∧ ((incStep stA.state evA).changed = false → stationReducer stA evA = stA) :=
  live_station_delivery Nat stA evA incStep rfl

/-! ## A generic preservation principle for the router -/

/-- Constrains the payload of registration events; plain and batch events are
unrestricted (batch members are always plain events). -/
def RegPayloadOK (R : Station σ → Prop) : DispatchedSupervisedEvent σ → Prop
  | .register p => R p
  | _ => True

/-- Any registry predicate preserved by single-event delivery and by
registration inserts is preserved by the whole router. -/
theorem reducer_preservation (σ : Type) (P : Stations σ → Prop)
    (R : Station σ → Prop)
    (hdeliver : ∀ (s : Stations σ) (key : String) (e : PlainEvent),
      P s → P (deliver s key e))
    (hreg : ∀ (s : Stations σ) (payload : Station σ), R payload →
      P s → P (insertStation s payload.id payload)) :
    ∀ (s : Stations σ) (ev : DispatchedSupervisedEvent σ),
      RegPayloadOK R ev → P s → P (stationsReducer s ev) := by
  refine (stationsReducer.mutual_induct
    (fun s ev => RegPayloadOK R ev → P s → P (stationsReducer s ev))
    (fun s es => P s → P (applyEvents s es))
    ?_ ?_ ?_ ?_ ?_ ?_ ?_).1
  · intro s es h2 _ hp
    rw [stationsReducer_batched]
    exact h2 hp
  · intro s payload hQ hp
    rw [stationsReducer_register]
    exact hreg s payload hQ hp
  · intro s e ids he hbatch _ hp
    rw [stationsReducer_many s e ids he]
    have := hbatch trivial hp
    rwa [stationsReducer_batched] at this
  · intro s e id he _ hp
    rw [stationsReducer_one s e id he]
    exact hdeliver s id e hp
  · intro s e he _ hp
    rw [stationsReducer_noTarget s e he]
    exact hdeliver s "undefined" e hp
  · intro s hp
    simpa using hp
  · intro s e es h1 h2 hp
    rw [applyEvents_cons]
    exact h2 (h1 trivial hp)

theorem lookup_deliver_isSome (s : Stations σ) (key : String) (e : PlainEvent)
    (k : String) (h : (lookupStation s k).isSome) :
    (lookupStation (deliver s key e) k).isSome := by
  unfold deliver
  cases hfind : lookupStation s key with
  | none => exact h
  | some st =>
    rw [lookup_insert]
    by_cases hk : key = k <;> simp [hk, h]

theorem lookup_insert_isSome (s : Stations σ) (key : String) (v : Station σ)
    (k : String) (h : (lookupStation s k).isSome) :
    (lookupStation (insertStation s key v) k).isSome := by
  rw [lookup_insert]
  by_cases hk : key = k <;> simp [hk, h]

/-- C8: the router never removes an entry — every identity registered before
an event is still registered after it — and a registration event
inserts/overwrites exactly the entry for its station's identity, leaving
every other entry unchanged. -/
theorem router_never_removes (σ : Type) (s : Stations σ)
    (ev : DispatchedSupervisedEvent σ) :
    (∀ k, (lookupStation s k).isSome →
      (lookupStation (stationsReducer s ev) k).isSome)
    ∧ ∀ payload, ev = .register payload →
        lookupStation (stationsReducer s ev) payload.id = some payload
        ∧ ∀ k, k ≠ payload.id →
            lookupStation (stationsReducer s ev) k = lookupStation s k := by
  constructor
  · intro k hk
    exact reducer_preservation σ (fun r => (lookupStation r k).isSome) (fun _ => True)
      (fun s' key e hp => lookup_deliver_isSome s' key e k hp)
      (fun s' payload _ hp => lookup_insert_isSome s' payload.id payload k hp)
      s ev (by cases ev <;> trivial) hk
  · rintro payload rfl
    rw [stationsReducer_register]
    exact ⟨lookup_insert_self s payload.id payload,
      fun k hk => lookup_insert_ne s payload.id payload k fun hc => hk hc.symm⟩

/-- C5: dispatching a sequence of single-target events at a station with no
live interpreter appends them, in arrival order, to the tail of its pending
queue: the final queue is the initial queue followed by exactly the
dispatched events — none dropped, none reordered — and the station stays
interpreter-less. -/
theorem queue_fifo (σ : Type) (s : Stations σ) (k : String) (st : Station σ)
    (evs : List PlainEvent) (hf : lookupStation s k = some st)
    (hsvc : st.service = none)
    (hto : ∀ e ∈ evs, e.target = some (.one k)) :
    ∃ st', lookupStation (applyEvents s evs) k = some st'
      ∧ st'.eventQueue = st.eventQueue ++ evs ∧ st'.service = none := by
  induction evs generalizing s st with
  | nil => exact ⟨st, by simpa using hf, by simp, hsvc⟩
  | cons e es ih =>
    have he : e.target = some (.one k) := hto e (List.mem_cons_self e es)
    have hred : stationsReducer s (.plain e) =
        insertStation s k { st with eventQueue := st.eventQueue ++ [e] } := by
      rw [stationsReducer_one s e k he]
      simp [deliver, hf, stationReducer, hsvc]
    obtain ⟨st', h1, h2, h3⟩ := ih (insertStation s k
        { st with eventQueue := st.eventQueue ++ [e] })
      { st with eventQueue := st.eventQueue ++ [e] }
      (lookup_insert_self s k _) (by simpa using hsvc)
      (fun e' h' => hto e' (List.mem_cons_of_mem e h'))
    refine ⟨st', ?_, ?_, h3⟩
    · rw [applyEvents_cons, hred]
      exact h1
    · rw [h2]
      simp

/-- C5 witness: two events dispatched at the parked station `"B"` end up in
its queue in arrival order. -/
theorem queue_fifo_witness :
    ∃ st', lookupStation
        (applyEvents regAB
          [{ type := "E1", value := none, target := some (.one "B") },
           { type := "E2", value := none, target := some (.one "B") }]) "B" = some st'
      ∧ st'.eventQueue = stB.eventQueue ++
          [{ type := "E1", value := none, target := some (.one "B") },
           { type := "E2", value := none, target := some (.one "B") }]
      ∧ st'.service = none :=
  queue_fifo Nat regAB "B" stB _ rfl rfl (by decide)

/-- Delivering events that all target the registry key `id` of a live
station advances that station's stored state exactly as a fresh interpreter
seeded with its current state would advance, provided the interpreter only
reports `changed = false` when the state is unchanged. -/
theorem applyEvents_live_replay (σ : Type) (id : String)
    (send : σ → PlainEvent → NextState σ) (q : List PlainEvent) :
    ∀ (s : Stations σ) (st : Station σ),
      lookupStation s id = some st → st.service = some send →
      (∀ e ∈ q, e.target = some (.one id)) →
      (∀ x e, (send x e).changed = false → (send x e).state = x) →
      ∃ st', lookupStation (applyEvents s q) id = some st'
        ∧ st'.state = replay send st.state q ∧ st'.service = some send := by
  induction q with
  | nil =>
    intro s st h1 h2 _ _
    exact ⟨st, by simpa using h1, rfl, h2⟩
  | cons e es ih =>
    intro s st h1 h2 hq hchg
    have he : e.target = some (.one id) := hq e (List.mem_cons_self e es)
    have hred : stationsReducer s (.plain e) =
        insertStation s id (stationReducer st e) := by
      rw [stationsReducer_one s e id he]
      simp [deliver, h1]
    have hsvc1 : (stationReducer st e).service = some send := by
      unfold stationReducer
      rw [h2]
      cases hc : (send st.state e).changed <;> simp [hc, h2]
    have hstate1 : (stationReducer st e).state = (send st.state e).state := by
      unfold stationReducer
      rw [h2]
      cases hc : (send st.state e).changed with
      | true => simp [hc]
      | false =>
        simp [hc]
        exact (hchg st.state e hc).symm
    obtain ⟨st', ha, hb, hc'⟩ := ih (insertStation s id (stationReducer st e))
      (stationReducer st e) (lookup_insert_self s id _) hsvc1
      (fun e' h' => hq e' (List.mem_cons_of_mem e h')) hchg
    refine ⟨st', ?_, ?_, hc'⟩
    · rw [applyEvents_cons, hred]
      exact ha
    · rw [hb, hstate1]
      rfl

/-- C3: draining a live station's non-empty queue — clearing it and
redispatching it as one batch through the router — leaves the station's
stored state equal to the result of feeding the same event sequence, in the
same order, to a fresh interpreter seeded with the pre-drain stored state.
(`replay` models the fresh interpreter; the interpreter contract is that a
send reporting `changed = false` has kept its state.) -/
theorem drain_replay_equivalence (σ : Type) (s : Stations σ) (id : String)
    (st : Station σ) (send : σ → PlainEvent → NextState σ)
    (hfind : lookupStation s id = some st)
    (hsvc : st.service = some send)
    (hne : st.eventQueue ≠ [])
    (hq : ∀ e ∈ st.eventQueue, e.target = some (.one id))
    (hchg : ∀ x e, (send x e).changed = false → (send x e).state = x) :
    ∃ st', lookupStation (drainStation s id) id = some st'
      ∧ st'.state = replay send st.state st.eventQueue := by
  unfold drainStation
  rw [hfind]
  dsimp only
  rw [if_neg (by simpa using hne), stationsReducer_batched]
  obtain ⟨st', h1, h2, _⟩ := applyEvents_live_replay σ id send st.eventQueue
    (insertStation s id { st with eventQueue := [] }) { st with eventQueue := [] }
    (lookup_insert_self s id _) (by simpa using hsvc) hq hchg
  exact ⟨st', h1, h2⟩

/-- A live station `"C"` holding two pending events, and its registry:
the pre-drain configuration of claim C3. -/
def stC : Station Nat :=
  { id := "C", machine := incStep, service := some incStep,
    eventQueue := [{ type := "E1", value := none, target := some (.one "C") },
                   { type := "E2", value := none, target := some (.one "C") }],
    state := 7 }

def regC : Stations Nat := [("C", stC)]

/-- C3 witness: draining the concrete station `"C"` replays its two queued
events from its pre-drain state. -/
theorem drain_replay_equivalence_witness :
    ∃ st', lookupStation (drainStation regC "C") "C" = some st'
      ∧ st'.state = replay incStep stC.state stC.eventQueue :=
  drain_replay_equivalence Nat regC "C" stC incStep rfl rfl (by decide) (by decide)
    (fun x e hc => by simp [incStep] at hc)

/-! ## Reachability and the queue-empty invariant (C4) -/

/-- The spec's Station invariant: a station with a live interpreter has an
empty pending queue. -/
def QueueInvariant (s : Stations σ) : Prop :=
  ∀ k st, lookupStation s k = some st → st.service.isSome → st.eventQueue = []

/-- The events `useSupervisedMachine` ever dispatches: plain events and
batches built by `sendWrapper` or the drain effect, and registrations whose
payload is the freshly constructed station — which never carries a live
interpreter (`maybeStation` is built without a `service`). -/
inductive HookDispatch : DispatchedSupervisedEvent σ → Prop where
  | plain (e : PlainEvent) : HookDispatch (.plain e)
  | batched (es : List PlainEvent) : HookDispatch (.batched es)
  | register (st : Station σ) (h : st.service = none) : HookDispatch (.register st)

/-- Registry states reachable in the source: the store starts empty; it
changes through dispatches of hook-shaped events, through a mount commit
(the attach effect immediately followed by the drain effect in the same
synchronous effect flush), and through the unmount cleanup. -/
inductive Reachable : Stations σ → Prop where
  | empty : Reachable []
  | dispatch {s : Stations σ} {ev : DispatchedSupervisedEvent σ} :
      Reachable s → HookDispatch ev → Reachable (stationsReducer s ev)
  | mount {s : Stations σ} (id : String) (svc : σ → PlainEvent → NextState σ) :
      Reachable s → Reachable (mountStation s id svc)
  | unmount {s : Stations σ} (id : String) :
      Reachable s → Reachable (detachService s id)

theorem queueInvariant_insert (s : Stations σ) (k : String) (v : Station σ)
    (hv : v.service.isSome → v.eventQueue = []) (hs : QueueInvariant s) :
    QueueInvariant (insertStation s k v) := by
  intro k' st' hl hsvc
  rw [lookup_insert] at hl
  by_cases h : k = k'
  · rw [if_pos h] at hl
    cases hl
    exact hv hsvc
  · rw [if_neg h] at hl
    exact hs k' st' hl hsvc

/-- The per-station reducer keeps a station's invariant: a live station's
queue is untouched and a parked station stays parked. -/
theorem stationReducer_ok (st : Station σ) (e : PlainEvent)
    (hst : st.service.isSome → st.eventQueue = []) :
    (stationReducer st e).service.isSome → (stationReducer st e).eventQueue = [] := by
  unfold stationReducer
  cases hsvc : st.service with
  | some send =>
    have hq := hst (by simp [hsvc])
    cases hc : (send st.state e).changed <;> simp [hc, hq, hst, hsvc]
  | none => simp

theorem queueInvariant_deliver (s : Stations σ) (key : String) (e : PlainEvent)
    (hs : QueueInvariant s) : QueueInvariant (deliver s key e) := by
  unfold deliver
  cases hfind : lookupStation s key with
  | none => exact hs
  | some st =>
    exact queueInvariant_insert s key _
      (stationReducer_ok st e fun h => hs key st hfind h) hs

/-- The queue-empty invariant is preserved by every hook-shaped dispatch. -/
theorem queueInvariant_reduce (s : Stations σ) (ev : DispatchedSupervisedEvent σ)
    (hok : HookDispatch ev) (hs : QueueInvariant s) :
    QueueInvariant (stationsReducer s ev) := by
  refine reducer_preservation σ QueueInvariant (fun p => p.service = none)
    (fun s' key e hp => queueInvariant_deliver s' key e hp)
    (fun s' payload hnone hp =>
      queueInvariant_insert s' payload.id payload (by simp [hnone]) hp)
    s ev ?_ hs
  cases hok with
  | plain e => trivial
  | batched es => trivial
  | register st h => exact h

/-- A mount commit — attach, then drain in the same effect flush — restores
the queue-empty invariant even when the freshly attached station still holds
queued events. -/
theorem queueInvariant_mount (s : Stations σ) (id : String)
    (svc : σ → PlainEvent → NextState σ) (hs : QueueInvariant s) :
    QueueInvariant (mountStation s id svc) := by
  unfold mountStation attachService
  cases hfind : lookupStation s id with
  | none =>
    unfold drainStation
    rw [hfind]
    exact hs
  | some st =>
    unfold drainStation
    rw [lookup_insert_self]
    dsimp only
    by_cases hq : ({ st with service := some svc } : Station σ).eventQueue.isEmpty = true
    · rw [if_pos hq]
      refine queueInvariant_insert s id _ (fun _ => ?_) hs
      simpa using hq
    · rw [if_neg hq, stationsReducer_batched]
      have hinv : QueueInvariant (insertStation (insertStation s id
          { st with service := some svc }) id
          { st with service := some svc, eventQueue := [] }) := by
        -- double insert at the same key: characterize by lookups
        intro k' st' hl hsvc'
        rw [lookup_insert] at hl
        by_cases h : id = k'
        · rw [if_pos h] at hl
          cases hl
          rfl
        · rw [if_neg h, lookup_insert, if_neg h] at hl
          exact hs k' st' hl hsvc'
      -- drain redispatches the old queue as a batch of plain events
      have := queueInvariant_reduce _ (.batched st.eventQueue)
        (HookDispatch.batched _) hinv
      rwa [stationsReducer_batched] at this


theorem queueInvariant_detach (s : Stations σ) (id : String)
    (hs : QueueInvariant s) : QueueInvariant (detachService s id) := by
  unfold detachService
  cases hfind : lookupStation s id with
  | none => exact hs
  | some st =>
    refine queueInvariant_insert s id _ (fun h => ?_) hs
    simp at h

theorem reachable_queueInvariant {s : Stations σ} (h : Reachable s) :
    QueueInvariant s := by
  induction h with
  | empty => intro k st hl; cases hl
  | dispatch hr hok ih => exact queueInvariant_reduce _ _ hok ih
  | mount id svc hr ih => exact queueInvariant_mount _ id svc ih
  | unmount id hr ih => exact queueInvariant_detach _ id ih

/-- C4: in every reachable registry state, a station with a live interpreter
attached has an empty pending queue — queueing can only be observed while a
station has no live interpreter (before it first goes live or after its
interpreter is detached). -/
theorem live_implies_empty_queue (σ : Type) (s : Stations σ) (h : Reachable s)
    (k : String) (st : Station σ) (hl : lookupStation s k = some st)
    (hsvc : st.service.isSome) : st.eventQueue = [] :=
  reachable_queueInvariant h k st hl hsvc

/-- The parked station the hook constructs for identity `"A"` on first
render (empty queue, machine's initial state, no live interpreter yet). -/
def freshA : Station Nat :=
  { id := "A", machine := incStep, service := none, eventQueue := [], state := 0 }

/-- A concrete reachable registry: register `"A"` from the empty registry,
then mount it. -/
def mountedA : Stations Nat :=
  mountStation (stationsReducer [] (.register freshA)) "A" incStep

theorem mountedA_reachable : Reachable mountedA :=
  Reachable.mount "A" incStep
    (Reachable.dispatch Reachable.empty (HookDispatch.register freshA rfl))

/-- C4 witness: in the concrete reachable registry with `"A"` registered and
mounted, the live station `"A"` has an empty queue. -/
theorem live_implies_empty_queue_witness :
    ∃ st, lookupStation mountedA "A" = some st
      ∧ st.service.isSome = true ∧ st.eventQueue = [] := by
  have hl : lookupStation mountedA "A" = some { freshA with service := some incStep } := by
    unfold mountedA
    rw [stationsReducer_register]
    rfl
  exact ⟨{ freshA with service := some incStep }, hl, rfl,
    live_implies_empty_queue Nat mountedA mountedA_reachable "A" _ hl rfl⟩

/-! ## Send normalization (C9) and absent targets at the router (C10) -/

/-- C9 counterexample: an event object carrying the explicit target `""` is
not preserved by the send wrapper — `event.to || id` treats the empty string
as falsy and replaces it with the component's identity `"A"`. -/
theorem send_target_not_preserved_cex :
    sendWrapper (σ := Nat) "A"
        (.single (.obj { type := "X", value := none, target := some (.one "") }))
      ≠ .plain { type := "X", value := none, target := some (.one "") } := by
  simp [sendWrapper, normalizeItem, toOrId]

/-- C9 (amended): every event sent through a component's send function is
normalized — a bare type name becomes an event object targeted at the
component's own identity; an event object without an explicit target is
stamped with the component's identity, an existing target being preserved
unless it is the (falsy) empty string, which is also replaced by the
component's identity; and an array is normalized element-wise and wrapped
into a single batch event. -/
theorem send_normalization (σ : Type) (id : String) :
    (∀ t, sendWrapper (σ := σ) id (.single (.name t)) =
        .plain { type := t, value := none, target := some (.one id) })
    ∧ (∀ e : PlainEvent, e.target = none →
        sendWrapper (σ := σ) id (.single (.obj e)) =
          .plain { e with target := some (.one id) })
    ∧ (∀ e tid, e.target = some (.one tid) → tid ≠ "" →
        sendWrapper (σ := σ) id (.single (.obj e)) =
          .plain { e with target := some (.one tid) })
    ∧ (∀ e ids, e.target = some (.many ids) →
        sendWrapper (σ := σ) id (.single (.obj e)) =
          .plain { e with target := some (.many ids) })
    ∧ (∀ e, e.target = some (.one "") →
        sendWrapper (σ := σ) id (.single (.obj e)) =
          .plain { e with target := some (.one id) })
    ∧ (∀ items, sendWrapper (σ := σ) id (.list items) =
        .batched (items.map (normalizeItem id))) := by
  refine ⟨fun t => rfl, fun e he => ?_, fun e tid he ht => ?_,
    fun e ids he => ?_, fun e he => ?_, fun items => rfl⟩
  · simp [sendWrapper, normalizeItem, toOrId, he]
  · simp [sendWrapper, normalizeItem, toOrId, he, ht]
  · simp [sendWrapper, normalizeItem, toOrId, he]
  · simp [sendWrapper, normalizeItem, toOrId, he]

/-- A station registered under the literal identity `"undefined"`, and its
registry: the configuration on which claim C10 fails. -/
def stUndef : Station Nat :=
  { id := "undefined", machine := incStep, service := none, eventQueue := [], state := 0 }

def regUndef : Stations Nat := [("undefined", stUndef)]

/-- An event whose `to` field is absent. -/
def evNoTarget : PlainEvent := { type := "X", value := none, target := none }

/-- C10 counterexample: with a station registered under the identity
`"undefined"`, the router does not return the registry unchanged on an event
with an absent target — JavaScript's `state[event.to]` coerces the absent
key to the property key `"undefined"` and delivers (here: queues) the event
at that station. -/
theorem missing_target_dropped_cex :
    stationsReducer regUndef (.plain evNoTarget) ≠ regUndef := by
  rw [stationsReducer_noTarget regUndef evNoTarget rfl]
  intro h
  have h2 := congrArg
    (fun r => (lookupStation r "undefined").map fun st => st.eventQueue) h
  simp [deliver, regUndef, stUndef, evNoTarget, lookupStation, insertStation,
    stationReducer] at h2

/-- C10 (amended): a non-batch, non-registration event whose `to` field is
absent is silently dropped — the router returns the registry unchanged,
exactly as for an unknown target — provided no station is registered under
the literal identity `"undefined"`, the property key JavaScript coerces the
absent target to. -/
theorem missing_target_dropped (σ : Type) (s : Stations σ) (e : PlainEvent)
    (he : e.target = none) (hund : lookupStation s "undefined" = none) :
    stationsReducer s (.plain e) = s := by
  rw [stationsReducer_noTarget s e he]
  simp [deliver, hund]

/-- C10 witness: an event with an absent target leaves the concrete registry
(which has no `"undefined"` station) unchanged. -/
theorem missing_target_dropped_witness :
    stationsReducer regAB (.plain evNoTarget) = regAB :=
  missing_target_dropped Nat regAB evNoTarget rfl rfl

end Supervisor
